import Mathlib

/-!
Verification of the parallel next-prime search of the primify repository.

The development shallowly embeds the two Python modules the claims are
about:

* src/primify/prime_finder.py : class NextPrimeFinder with the candidate
  generator prime_candidates, the pool worker is_prime_worker and the
  coordinator find_next_prime;
* src/primify/base.py : the dataclass ImageNumber, the method
  PrimeImage.get_prime and a second, older copy of NextPrimeFinder with
  its own prime_candidates generator.

Modelling conventions.

* Python arbitrary-precision integers in this code are non-negative, so
  they are embedded as Nat; the single Python int return value of
  find_next_prime can be the sentinel -1, so the final selection is
  embedded with values in Int.
* The external primality oracle sympy.isprime is embedded as trial
  division (isprime) and proved to agree with Nat.Prime; the external
  sympy.nextprime is embedded as the least prime strictly above its
  argument, which is its documented behaviour.
* Concurrency: pool.starmap dispatches one worker per candidate of a
  batch and collects their results in candidate order.  A run of one
  batch is embedded as an atomic interleaving: the workers of the batch
  execute one after the other in an adversarial order (a list of
  candidate indices).  The shared manager Event is the Bool threaded
  through that execution.  A pool with one worker processes the batch in
  candidate order, so the in-order schedule List.range is the
  single-worker behaviour, and other orders model multi-worker races.
* The final Python loop iterates a set; iteration order of a Python set
  is unspecified, so the selection step is embedded as a function of an
  adversarial enumeration of that set.
* float: math.log in the batch-size formula is embedded as the exact
  real logarithm Real.log; float rounding of math.log is not modelled.
* mp.Pool raises ValueError for a pool size below 1 before any task is
  dispatched; this documented library behaviour is embedded as the
  error branch of find_next_prime_run.
-/

/-- sympy.isprime, embedded as trial division over all numbers below the
argument; proved below to agree with Nat.Prime. -/
def isprime (n : ℕ) : Bool :=
  decide (2 ≤ n) && (List.range n).all fun m => decide (m < 2) || !(decide (m ∣ n))

/-- NextPrimeFinder.is_prime_worker (prime_finder.py, lines 26-37).  The
worker receives a candidate and the state of the shared found_prime
event; it returns the Python return value, the state of the event after
the call, and the number of primality tests it actually ran (0 when the
event was already set on entry, 1 otherwise). -/
def is_prime_worker (candidate : ℕ) (found_prime : Bool) : Option ℕ × Bool × ℕ :=
  if !found_prime then
    if isprime candidate then (some candidate, true, 1)
    else (none, found_prime, 1)
  else (none, found_prime, 0)

/-- One step of the scanning loop of NextPrimeFinder.prime_candidates
(prime_finder.py, lines 19-24): starting from a counter value, advance
the counter to the next value whose residue mod 6 is 1 or 5 (the value
at which the generator yields).  The Python loop is unrolled with fuel
6; a residue 1 or 5 is always reached within at most 3 increments, so
the fuel never runs out (the closed form is proved below). -/
def nextFromAux : ℕ → ℕ → ℕ
  | 0, c => c
  | fuel + 1, c => if c % 6 = 1 ∨ c % 6 = 5 then c else nextFromAux fuel (c + 1)

/-- The counter value at which the generator loop next yields. -/
def nextFrom (c : ℕ) : ℕ :=
  nextFromAux 6 c

/-- NextPrimeFinder.prime_candidates of prime_finder.py as a stream:
element n is the n-th value yielded by the generator started at start.
After a yield the Python loop increments the counter, so the next
element is the next hit at or after the successor of the previous
element. -/
def prime_candidates (start : ℕ) : ℕ → ℕ
  | 0 => nextFrom start
  | n + 1 => nextFrom (prime_candidates start n + 1)

/-- NextPrimeFinder.prime_candidates of base.py (lines 205-211) as a
stream.  In that copy the increment sits in the else branch, so after a
yield the loop resumes with the counter unchanged: the next element is
the next hit at or after the previous element itself. -/
def base_prime_candidates (start : ℕ) : ℕ → ℕ
  | 0 => nextFrom start
  | n + 1 => nextFrom (base_prime_candidates start n)

/-- The state of a NextPrimeFinder instance after __init__
(prime_finder.py, lines 14-17). -/
structure NextPrimeFinder where
  value : ℕ
  n_workers : ℕ
  expected_n_primality_tests : ℕ
deriving DecidableEq

/-- Errors raised by the Python runtime in this code path: math.log on a
non-positive argument, and mp.Pool on a pool size below 1. -/
inductive PyError where
  | mathDomainError : PyError
  | poolSizeError : PyError
deriving DecidableEq

/-- The instance built by NextPrimeFinder.__init__ when math.log
succeeds: the batch size field is max(10, int(math.log(value))), with
math.log embedded as the exact real logarithm. -/
noncomputable def NextPrimeFinder.initFd (value n_workers : ℕ) : NextPrimeFinder :=
  ⟨value, n_workers, max 10 ⌊Real.log value⌋₊⟩

/-- NextPrimeFinder.__init__ (prime_finder.py, lines 14-17).  The
constructor stores value and n_workers without any validation and
computes the expected number of primality tests; the only failure is
the math domain error of math.log when value = 0 (the embedded values
are non-negative).  In particular no worker-count check happens here. -/
noncomputable def NextPrimeFinder.init (value n_workers : ℕ) : Except PyError NextPrimeFinder :=
  if value = 0 then Except.error PyError.mathDomainError
  else Except.ok (NextPrimeFinder.initFd value n_workers)

/-- The candidates dispatched in round r of find_next_prime: the shared
generator stream is consumed batch by batch through islice, so round r
receives stream elements r*B, ..., r*B + B - 1 where B is the batch
size stored in the instance. -/
def batchCands (fd : NextPrimeFinder) (r : ℕ) : List ℕ :=
  (List.range fd.expected_n_primality_tests).map
    fun j => prime_candidates fd.value (r * fd.expected_n_primality_tests + j)

/-- State of the shared found_prime event after the workers of one
batch executed in the given order (a list of indices into cands),
starting from the given event state. -/
def execFlag (cands : List ℕ) : List ℕ → Bool → Bool
  | [], flag => flag
  | i :: rest, flag =>
      execFlag cands rest (is_prime_worker (cands.getD i 0) flag).2.1

/-- Return value of the worker for candidate index j when the workers
of one batch executed in the given order starting from the given event
state; none for an index that is not in the order. -/
def execRes (cands : List ℕ) : List ℕ → Bool → ℕ → Option ℕ
  | [], _, _ => none
  | i :: rest, flag, j =>
      if j = i then (is_prime_worker (cands.getD i 0) flag).1
      else execRes cands rest (is_prime_worker (cands.getD i 0) flag).2.1 j

/-- Total number of primality tests actually run by the workers of one
batch executed in the given order. -/
def execTests (cands : List ℕ) : List ℕ → Bool → ℕ
  | [], _ => 0
  | i :: rest, flag =>
      (is_prime_worker (cands.getD i 0) flag).2.2 +
        execTests cands rest (is_prime_worker (cands.getD i 0) flag).2.1

/-- Candidates on which a primality test was actually run by the
workers of one batch executed in the given order, in execution order. -/
def execTested (cands : List ℕ) : List ℕ → Bool → List ℕ
  | [], _ => []
  | i :: rest, flag =>
      (if (is_prime_worker (cands.getD i 0) flag).2.2 = 0 then []
       else [cands.getD i 0]) ++
        execTested cands rest (is_prime_worker (cands.getD i 0) flag).2.1

/-- The list returned by pool.starmap for one batch: one entry per
dispatched candidate, in candidate order, each entry being the return
value of that candidate's worker. -/
def batchOutcome (cands order : List ℕ) : List (Option ℕ) :=
  (List.range cands.length).map (execRes cands order false)

/-- Insertion of one element into the model of a Python set: adding an
element that is already a member leaves the set unchanged. -/
def setInsert (acc : List (Option ℕ)) (x : Option ℕ) : List (Option ℕ) :=
  if x ∈ acc then acc else acc ++ [x]

/-- The merge step results |= set(result) of find_next_prime: every
outcome of the round is inserted into the accumulated set; equal
outcomes collapse to a single membership. -/
def setUnion (acc : List (Option ℕ)) (xs : List (Option ℕ)) : List (Option ℕ) :=
  xs.foldl setInsert acc

/-- Observable data of one run of the while loop of find_next_prime:
the contents of the accumulated Python set results, the number of
rounds executed, the total number of primality tests run, the
candidates actually tested, and the number of candidates dispatched in
each round. -/
structure RunStats where
  results : List (Option ℕ)
  rounds : ℕ
  tests : ℕ
  tested : List ℕ
  batchLengths : List ℕ
deriving DecidableEq

/-- The while loop of find_next_prime (prime_finder.py, lines 50-59),
parametrised by the adversarial per-round worker execution order sched
and by fuel (the loop itself terminates only when a prime is found).
Each iteration checks the event, dispatches the next batch from the
shared stream, runs the workers under the schedule of the round, merges
the starmap list into the accumulated set with a set union, and stops
as soon as the event is set. -/
def searchLoop (fd : NextPrimeFinder) (sched : ℕ → List ℕ) :
    ℕ → ℕ → List (Option ℕ) → ℕ → List ℕ → List ℕ → Option RunStats
  | 0, _, _, _, _, _ => none
  | fuel + 1, r, results, tests, tested, lens =>
      let cands := batchCands fd r
      let results2 := setUnion results (batchOutcome cands (sched r))
      let tests2 := tests + execTests cands (sched r) false
      let tested2 := tested ++ execTested cands (sched r) false
      let lens2 := lens ++ [cands.length]
      if execFlag cands (sched r) false then
        some ⟨results2, r + 1, tests2, tested2, lens2⟩
      else searchLoop fd sched fuel (r + 1) results2 tests2 tested2 lens2

/-- The final loop of find_next_prime (prime_finder.py, lines 66-70):
iterate the accumulated set in the (adversarial) enumeration order,
return the first entry that is not None, and fall back to -1. -/
def selectResult : List (Option ℕ) → ℤ
  | [] => -1
  | some c :: _ => (c : ℤ)
  | none :: rest => selectResult rest

/-- NextPrimeFinder.find_next_prime (prime_finder.py, lines 39-70) up
to the final selection: mp.Pool raises when the stored worker count is
below 1, before any candidate is generated and before any worker runs;
otherwise the while loop runs.  The Option is the fuel: none never
arises in a completed run. -/
def find_next_prime_run (fd : NextPrimeFinder) (sched : ℕ → List ℕ) (fuel : ℕ) :
    Except PyError (Option RunStats) :=
  if fd.n_workers < 1 then Except.error PyError.poolSizeError
  else Except.ok (searchLoop fd sched fuel 0 [] 0 [] [])

/-- The dataclass ImageNumber of base.py (lines 17-21). -/
structure ImageNumber where
  value : ℕ
  image_width : ℕ
deriving DecidableEq

/-- sympy.nextprime, embedded by its documented behaviour: the least
prime strictly greater than the argument. -/
def nextprime (n : ℕ) : ℕ :=
  Nat.find (show ∃ p, n < p ∧ Nat.Prime p by
    obtain ⟨p, hp, hpp⟩ := Nat.exists_infinite_primes (n + 1)
    exact ⟨p, by omega, hpp⟩)

/-- PrimeImage.get_prime (base.py, lines 171-177) as a function of the
raw image number it reads: it builds a new ImageNumber whose value is
the next prime of the raw value and whose image_width is the raw width,
copied over unchanged. -/
def PrimeImage.get_prime (raw : ImageNumber) : ImageNumber :=
  ⟨nextprime raw.value, raw.image_width⟩

/-!  Helper lemmas about the candidate scan. -/

/-- Full unfolding of the bounded scan: within six consecutive values
there is always one with residue 1 or 5 mod 6, so the fallback branch
is unreachable. -/
theorem nextFrom_unfold (c : ℕ) :
    nextFrom c =
      if c % 6 = 1 ∨ c % 6 = 5 then c
      else if (c + 1) % 6 = 1 ∨ (c + 1) % 6 = 5 then c + 1
      else if (c + 2) % 6 = 1 ∨ (c + 2) % 6 = 5 then c + 2
      else if (c + 3) % 6 = 1 ∨ (c + 3) % 6 = 5 then c + 3
      else if (c + 4) % 6 = 1 ∨ (c + 4) % 6 = 5 then c + 4
      else if (c + 5) % 6 = 1 ∨ (c + 5) % 6 = 5 then c + 5
      else c + 6 := rfl

/-- The scan never moves backwards. -/
theorem nextFrom_ge (c : ℕ) : c ≤ nextFrom c := by
  rw [nextFrom_unfold]; split_ifs <;> omega

/-- The scan stops on a residue 1 or 5 mod 6. -/
theorem nextFrom_mod (c : ℕ) : nextFrom c % 6 = 1 ∨ nextFrom c % 6 = 5 := by
  rw [nextFrom_unfold]; split_ifs <;> omega

/-- The scan stops at the first admissible value. -/
theorem nextFrom_min {c d : ℕ} (hcd : c ≤ d) (hd : d % 6 = 1 ∨ d % 6 = 5) :
    nextFrom c ≤ d := by
  rw [nextFrom_unfold]; split_ifs <;> omega

/-- A value that is already admissible is returned unchanged. -/
theorem nextFrom_eq_self {c : ℕ} (h : c % 6 = 1 ∨ c % 6 = 5) : nextFrom c = c := by
  rw [nextFrom_unfold, if_pos h]

/-- Every yielded candidate of the prime_finder.py generator has
residue 1 or 5 mod 6. -/
theorem prime_candidates_mod (start n : ℕ) :
    prime_candidates start n % 6 = 1 ∨ prime_candidates start n % 6 = 5 := by
  cases n with
  | zero => exact nextFrom_mod start
  | succ n => exact nextFrom_mod (prime_candidates start n + 1)

/-- The prime_finder.py generator is strictly increasing. -/
theorem prime_candidates_strictMono (start : ℕ) : StrictMono (prime_candidates start) := by
  apply strictMono_nat_of_lt_succ
  intro n
  exact lt_of_lt_of_le (Nat.lt_succ_self _) (nextFrom_ge (prime_candidates start n + 1))

/-- Trial division agrees with primality. -/
theorem isprime_iff (n : ℕ) : isprime n = true ↔ Nat.Prime n := by
  rw [Nat.prime_def_lt]
  simp only [isprime, Bool.and_eq_true, List.all_eq_true, List.mem_range,
    Bool.or_eq_true, decide_eq_true_eq, Bool.not_eq_true', decide_eq_false_iff_not]
  constructor
  · rintro ⟨h2, hall⟩
    refine ⟨h2, fun m hm hdvd => ?_⟩
    rcases hall m hm with hlt | hnd
    · have hm01 : m = 0 ∨ m = 1 := by omega
      rcases hm01 with rfl | rfl
      · have : n = 0 := Nat.eq_zero_of_zero_dvd hdvd
        omega
      · rfl
    · exact absurd hdvd hnd
  · rintro ⟨h2, hmin⟩
    refine ⟨h2, fun m hm => ?_⟩
    by_cases h : m < 2
    · exact Or.inl h
    · refine Or.inr fun hdvd => ?_
      have := hmin m hm hdvd
      omega

/-- A worker that enters with the event already set returns None, does
not touch the event and runs no test. -/
theorem is_prime_worker_set (c : ℕ) : is_prime_worker c true = (none, true, 0) := rfl

/-- A worker returns either None or exactly its own candidate. -/
theorem is_prime_worker_shape (c : ℕ) (flag : Bool) :
    (is_prime_worker c flag).1 = none ∨ (is_prime_worker c flag).1 = some c := by
  cases flag
  · cases h : isprime c <;> simp [is_prime_worker, h]
  · simp [is_prime_worker]

/-!  Helper lemmas about one batch execution. -/

/-- Once the event is set, no later worker changes it. -/
theorem execFlag_true (cands : List ℕ) (order : List ℕ) :
    execFlag cands order true = true := by
  induction order with
  | nil => rfl
  | cons i rest ih => simpa [execFlag, is_prime_worker] using ih

/-- Once the event is set, every later worker returns None. -/
theorem execRes_true (cands : List ℕ) (order : List ℕ) (j : ℕ) :
    execRes cands order true j = none := by
  induction order with
  | nil => rfl
  | cons i rest ih =>
      by_cases hj : j = i <;> simp [execRes, hj, is_prime_worker, ih]

/-- Once the event is set, no later worker runs a primality test. -/
theorem execTests_true (cands : List ℕ) (order : List ℕ) :
    execTests cands order true = 0 := by
  induction order with
  | nil => rfl
  | cons i rest ih => simpa [execTests, is_prime_worker] using ih

/-- Once the event is set, no later candidate is tested. -/
theorem execTested_true (cands : List ℕ) (order : List ℕ) :
    execTested cands order true = [] := by
  induction order with
  | nil => rfl
  | cons i rest ih => simpa [execTested, is_prime_worker] using ih

/-- Under any schedule and any event state, the recorded entry of a
worker is None or exactly its own candidate. -/
theorem execRes_shape (cands : List ℕ) (order : List ℕ) :
    ∀ (flag : Bool) (j : ℕ),
      execRes cands order flag j = none
      ∨ execRes cands order flag j = some (cands.getD j 0) := by
  induction order with
  | nil => intro flag j; exact Or.inl rfl
  | cons i rest ih =>
      intro flag j
      by_cases hj : j = i
      · subst hj
        have := is_prime_worker_shape (cands.getD j 0) flag
        simpa [execRes] using this
      · simpa [execRes, hj] using ih _ j

/-- In-order execution of a batch whose first candidate is the prime v:
the event is set, exactly one test runs, only v is tested, the worker
of index 0 records v and every other worker records None. -/
theorem exec_in_order_first_prime (cands : List ℕ) (rest : List ℕ) (v : ℕ)
    (hc0 : cands.getD 0 0 = v) (hp : isprime v = true) :
    execFlag cands (0 :: rest) false = true
    ∧ execTests cands (0 :: rest) false = 1
    ∧ execTested cands (0 :: rest) false = [v]
    ∧ execRes cands (0 :: rest) false 0 = some v
    ∧ ∀ j, j ≠ 0 → execRes cands (0 :: rest) false j = none := by
  have hw : is_prime_worker (cands.getD 0 0) false = (some v, true, 1) := by
    rw [hc0]; simp [is_prime_worker, hp]
  refine ⟨?_, ?_, ?_, ?_, ?_⟩
  · show execFlag cands rest (is_prime_worker (cands.getD 0 0) false).2.1 = true
    rw [hw]
    exact execFlag_true cands rest
  · show (is_prime_worker (cands.getD 0 0) false).2.2
        + execTests cands rest (is_prime_worker (cands.getD 0 0) false).2.1 = 1
    rw [hw]
    show 1 + execTests cands rest true = 1
    rw [execTests_true]
  · show (if (is_prime_worker (cands.getD 0 0) false).2.2 = 0 then []
          else [cands.getD 0 0])
        ++ execTested cands rest (is_prime_worker (cands.getD 0 0) false).2.1 = [v]
    rw [hw, hc0]
    show (if (1 : ℕ) = 0 then [] else [v]) ++ execTested cands rest true = [v]
    rw [execTested_true, if_neg (by omega)]
    rfl
  · show (if (0 : ℕ) = 0 then (is_prime_worker (cands.getD 0 0) false).1
          else execRes cands rest (is_prime_worker (cands.getD 0 0) false).2.1 0) = some v
    rw [if_pos rfl, hw]
  · intro j hj
    show (if j = 0 then (is_prime_worker (cands.getD 0 0) false).1
          else execRes cands rest (is_prime_worker (cands.getD 0 0) false).2.1 j) = none
    rw [if_neg hj, hw]
    exact execRes_true cands rest j

/-- A batch always records one entry per dispatched candidate. -/
theorem batchOutcome_length (cands order : List ℕ) :
    (batchOutcome cands order).length = cands.length := by
  simp [batchOutcome]

/-- Every round dispatches the batch size stored in the instance. -/
theorem batchCands_length (fd : NextPrimeFinder) (r : ℕ) :
    (batchCands fd r).length = fd.expected_n_primality_tests := by
  simp [batchCands]

/-- The first candidate of the first batch is the first element of the
generator stream. -/
theorem batchCands_getD_zero (fd : NextPrimeFinder) (b : ℕ)
    (hB : fd.expected_n_primality_tests = b + 1) :
    (batchCands fd 0).getD 0 0 = nextFrom fd.value := by
  simp only [batchCands, hB]
  rw [List.range_succ_eq_map, List.map_cons, List.getD_cons_zero]
  show prime_candidates fd.value (0 * (b + 1) + 0) = nextFrom fd.value
  have h0 : 0 * (b + 1) + 0 = 0 := by omega
  rw [h0]
  rfl

/-!  Helper lemmas about the set merge and the final selection. -/

/-- Membership after inserting one element into the Python set model. -/
theorem mem_setInsert (acc : List (Option ℕ)) (x y : Option ℕ) :
    y ∈ setInsert acc x ↔ y ∈ acc ∨ y = x := by
  unfold setInsert
  split_ifs with h
  · constructor
    · exact Or.inl
    · rintro (hy | rfl)
      · exact hy
      · exact h
  · simp [List.mem_append]

/-- Membership after the merge step results |= set(result). -/
theorem mem_setUnion (xs : List (Option ℕ)) :
    ∀ (acc : List (Option ℕ)) (y : Option ℕ),
      y ∈ setUnion acc xs ↔ y ∈ acc ∨ y ∈ xs := by
  induction xs with
  | nil => intro acc y; simp [setUnion]
  | cons x rest ih =>
      intro acc y
      show y ∈ setUnion (setInsert acc x) rest ↔ _
      rw [ih, mem_setInsert]
      simp [List.mem_cons]
      tauto

/-- Inserting into a duplicate-free set keeps it duplicate-free. -/
theorem setInsert_nodup (acc : List (Option ℕ)) (x : Option ℕ) (h : acc.Nodup) :
    (setInsert acc x).Nodup := by
  unfold setInsert
  split_ifs with hx
  · exact h
  · simpa [List.nodup_append, h] using hx

/-- The merge step never stores the same outcome value twice. -/
theorem setUnion_nodup (xs : List (Option ℕ)) :
    ∀ acc : List (Option ℕ), acc.Nodup → (setUnion acc xs).Nodup := by
  induction xs with
  | nil => intro acc h; exact h
  | cons x rest ih =>
      intro acc h
      exact ih (setInsert acc x) (setInsert_nodup acc x h)

/-- When the only non-None member of the set is some v, the final loop
returns v no matter in which order the set is enumerated. -/
theorem selectResult_unique (v : ℕ) :
    ∀ enum : List (Option ℕ),
      (∀ x ∈ enum, x = none ∨ x = some v) → some v ∈ enum →
      selectResult enum = (v : ℤ) := by
  intro enum
  induction enum with
  | nil => intro _ h; simp at h
  | cons a rest ih =>
      intro hall hmem
      cases a with
      | some c =>
          have hc : some c = none ∨ some c = some v := hall _ (List.mem_cons_self _ _)
          rcases hc with hc | hc
          · exact absurd hc (by simp)
          · have : c = v := by injection hc
            show (c : ℤ) = (v : ℤ)
            exact_mod_cast this
      | none =>
          have hmem2 : some v ∈ rest := by
            rcases List.mem_cons.mp hmem with h | h
            · exact absurd h (by simp)
            · exact h
          show selectResult rest = (v : ℤ)
          exact ih (fun x hx => hall x (List.mem_cons_of_mem _ hx)) hmem2

/-!  Helper lemmas about the search loop. -/

/-- A completed run executed one round per recorded batch length, and
every recorded batch length is the stored batch size. -/
theorem searchLoop_batchLengths (fd : NextPrimeFinder) (sched : ℕ → List ℕ) :
    ∀ (fuel r tests : ℕ) (results : List (Option ℕ)) (tested : List ℕ)
      (lens : List ℕ) (stats : RunStats),
      searchLoop fd sched fuel r results tests tested lens = some stats →
      ∃ k, stats.rounds = r + k ∧
        stats.batchLengths = lens ++ List.replicate k fd.expected_n_primality_tests := by
  intro fuel
  induction fuel with
  | zero =>
      intro r tests results tested lens stats h
      exact absurd h (by simp [searchLoop])
  | succ fuel ih =>
      intro r tests results tested lens stats h
      simp only [searchLoop] at h
      by_cases hflag : execFlag (batchCands fd r) (sched r) false = true
      · rw [if_pos hflag] at h
        simp only [Option.some.injEq] at h
        subst h
        refine ⟨1, rfl, ?_⟩
        simp [batchCands_length]
      · rw [if_neg hflag] at h
        obtain ⟨k, hk1, hk2⟩ := ih (r + 1) _ _ _ _ _ h
        refine ⟨k + 1, by omega, ?_⟩
        rw [hk2, batchCands_length]
        simp [List.replicate_succ, List.append_assoc]

/-- The next prime after n in the sense of Nat.find: strictly greater
and prime. -/
theorem nextprime_spec (n : ℕ) : n < nextprime n ∧ Nat.Prime (nextprime n) := by
  have h : ∃ p, n < p ∧ Nat.Prime p := by
    obtain ⟨p, hp, hpp⟩ := Nat.exists_infinite_primes (n + 1)
    exact ⟨p, by omega, hpp⟩
  exact Nat.find_spec h

/-!  Claim theorems. -/

/-- Claim C1 (code bug).  Evaluation of find_next_prime at the failing
input: start 5, two workers, first batch 5, 7, 11, ..., 31, under the
interleaving in which the worker of candidate 7 runs before the worker
of candidate 5.  The worker of 7 sets the event, the worker of 5 skips
its test, the accumulated set is set(None, 7), and the final loop
returns 7 under either enumeration order of that set — although 5 is
the first generated candidate, is prime and is at least the start, so
the smallest prime at or above the start is 5, not 7. -/
theorem find_next_prime_returns_nonminimal_prime :
    searchLoop ⟨5, 2, 10⟩ (fun _ => [1, 0, 2, 3, 4, 5, 6, 7, 8, 9]) 1 0 [] 0 [] []
        = some ⟨[none, some 7], 1, 1, [7], [10]⟩
    ∧ selectResult [none, some 7] = 7
    ∧ selectResult [some 7, none] = 7
    ∧ isprime 5 = true
    ∧ 5 % 6 = 5
    ∧ prime_candidates 5 0 = 5 := by decide

/-- Claim C2 (code bug).  The result of find_next_prime is not
independent of the interleaving: at start 5 the single-worker in-order
run returns 5, while a two-worker run in which the worker of candidate
7 runs first returns 7. -/
theorem find_next_prime_depends_on_schedule :
    searchLoop ⟨5, 1, 10⟩ (fun _ => List.range 10) 1 0 [] 0 [] []
        = some ⟨[some 5, none], 1, 1, [5], [10]⟩
    ∧ searchLoop ⟨5, 2, 10⟩ (fun _ => [1, 0, 2, 3, 4, 5, 6, 7, 8, 9]) 1 0 [] 0 [] []
        = some ⟨[none, some 7], 1, 1, [7], [10]⟩
    ∧ selectResult [some 5, none] = 5
    ∧ selectResult [none, some 7] = 7
    ∧ (5 : ℤ) ≠ 7 := by decide

/-- Claim C3 (confirmed).  The prime_finder.py generator is strictly
increasing, its first element is the smallest value at or above start
with residue 1 or 5 mod 6, and every element has residue 1 or 5 mod 6,
for every start. -/
theorem prime_candidates_spec (start : ℕ) :
    StrictMono (prime_candidates start)
    ∧ start ≤ prime_candidates start 0
    ∧ (∀ c, start ≤ c → c % 6 = 1 ∨ c % 6 = 5 → prime_candidates start 0 ≤ c)
    ∧ ∀ n, prime_candidates start n % 6 = 1 ∨ prime_candidates start n % 6 = 5 := by
  refine ⟨prime_candidates_strictMono start, nextFrom_ge start, ?_,
    prime_candidates_mod start⟩
  intro c hc hmod
  exact nextFrom_min hc hmod

/-- Witness for C3 at start 8 (a start with residue 2 mod 6): the first
element is at most 11, and the stream grows strictly. -/
theorem prime_candidates_spec_witness :
    prime_candidates 8 0 ≤ 11 ∧ prime_candidates 8 0 < prime_candidates 8 1 :=
  ⟨(prime_candidates_spec 8).2.2.1 11 (by decide) (by decide),
   (prime_candidates_spec 8).1 (show (0 : ℕ) < 1 by decide)⟩

/-- Claim C4 (counterexample).  At start 5 with one worker the first
round dispatches 10 candidates, but after the merge the accumulated
set holds only 2 entries: the 9 None outcomes collapse into one, so
the merged results do not contain one entry per dispatched candidate. -/
theorem merged_results_fewer_entries :
    (searchLoop ⟨5, 1, 10⟩ (fun _ => List.range 10) 1 0 [] 0 [] []).map
        (fun s => (s.results.length, s.batchLengths)) = some (2, [10])
    ∧ (2 : ℕ) ≠ 10 := by decide

/-- Claim C10 (counterexample).  The two generators are not
extensionally equal: started at 5, the base.py copy yields 5 again as
its second element (the same candidate twice, not strictly increasing),
while the prime_finder.py generator yields 7. -/
theorem base_prime_candidates_not_equiv :
    base_prime_candidates 5 1 = 5
    ∧ prime_candidates 5 1 = 7
    ∧ base_prime_candidates 5 0 = base_prime_candidates 5 1 := by decide

/-- Claim C10 (amended).  The base.py generator agrees with the
prime_finder.py generator on the first element only: it yields the
first admissible candidate forever, because its loop never increments
the counter after a yield. -/
theorem base_prime_candidates_constant (start n : ℕ) :
    base_prime_candidates start n = nextFrom start
    ∧ base_prime_candidates start 0 = prime_candidates start 0 := by
  refine ⟨?_, rfl⟩
  induction n with
  | zero => rfl
  | succ n ih =>
      show nextFrom (base_prime_candidates start n) = nextFrom start
      rw [ih]
      exact nextFrom_eq_self (nextFrom_mod start)

/-- Claim C8 (confirmed).  get_prime changes only the value field: the
width is copied through unchanged, and the value becomes the discovered
prime (the next prime of the raw value, which is prime and strictly
greater). -/
theorem get_prime_frame (raw : ImageNumber) :
    (PrimeImage.get_prime raw).image_width = raw.image_width
    ∧ (PrimeImage.get_prime raw).value = nextprime raw.value
    ∧ Nat.Prime (PrimeImage.get_prime raw).value
    ∧ raw.value < (PrimeImage.get_prime raw).value := by
  refine ⟨rfl, rfl, ?_, ?_⟩
  · exact (nextprime_spec raw.value).2
  · exact (nextprime_spec raw.value).1

/-- Claim C9 (confirmed).  A worker returns None or exactly its own
candidate; a non-None return implies the candidate is prime; and a
worker entering with the event already set returns None without
running any primality test. -/
theorem is_prime_worker_contract (c : ℕ) (flag : Bool) :
    ((is_prime_worker c flag).1 = none ∨ (is_prime_worker c flag).1 = some c)
    ∧ ((is_prime_worker c flag).1 ≠ none → isprime c = true ∧ Nat.Prime c)
    ∧ (flag = true → is_prime_worker c flag = (none, true, 0)) := by
  refine ⟨is_prime_worker_shape c flag, ?_, ?_⟩
  · intro hne
    cases flag
    · cases hp : isprime c
      · simp [is_prime_worker, hp] at hne
      · exact ⟨rfl, (isprime_iff c).mp hp⟩
    · exact absurd (by simp [is_prime_worker]) hne
  · rintro rfl
    rfl

/-- Witness for C9: with the event set, the worker for 10 skips; with
the event clear, the worker for 11 proves 11 prime. -/
theorem is_prime_worker_contract_witness :
    is_prime_worker 10 true = (none, true, 0)
    ∧ (isprime 11 = true ∧ Nat.Prime 11) :=
  ⟨(is_prime_worker_contract 10 true).2.2 rfl,
   (is_prime_worker_contract 11 false).2.1 (by decide)⟩

/-- Claim C4 (amended).  In every completed run each round pulls
exactly the stored batch size from the generator; the starmap list of a
round has exactly one entry per dispatched candidate, each entry being
None or that candidate; and the merge into the accumulated set keeps
every outcome value present and free of duplicates — although, as the
counterexample shows, equal outcome values collapse, so the merged set
does not keep one entry per candidate. -/
theorem batch_pull_and_merge (fd : NextPrimeFinder) (sched : ℕ → List ℕ) (fuel : ℕ)
    (stats : RunStats) (h : searchLoop fd sched fuel 0 [] 0 [] [] = some stats) :
    (∀ l ∈ stats.batchLengths, l = fd.expected_n_primality_tests)
    ∧ ∀ cands order : List ℕ,
        (batchOutcome cands order).length = cands.length
        ∧ (∀ j : ℕ, execRes cands order false j = none
            ∨ execRes cands order false j = some (cands.getD j 0))
        ∧ (∀ (results : List (Option ℕ)) (x : Option ℕ),
            x ∈ batchOutcome cands order → x ∈ setUnion results (batchOutcome cands order))
        ∧ ∀ results : List (Option ℕ), results.Nodup →
            (setUnion results (batchOutcome cands order)).Nodup := by
  constructor
  · intro l hl
    obtain ⟨k, hk1, hk2⟩ := searchLoop_batchLengths fd sched fuel 0 0 [] [] [] stats h
    rw [hk2] at hl
    simp only [List.nil_append, List.mem_replicate] at hl
    exact hl.2
  · intro cands order
    refine ⟨batchOutcome_length cands order, execRes_shape cands order false, ?_, ?_⟩
    · intro results x hx
      exact (mem_setUnion (batchOutcome cands order) results x).mpr (Or.inr hx)
    · intro results hres
      exact setUnion_nodup (batchOutcome cands order) results hres

/-- Witness for C4 on the completed single-round run at start 5 with
one worker: the starmap list of the batch with candidates 5 and 7 under
the in-order schedule has one entry per candidate. -/
theorem batch_pull_and_merge_witness :
    (batchOutcome [5, 7] [0, 1]).length = ([5, 7] : List ℕ).length :=
  ((batch_pull_and_merge ⟨5, 1, 10⟩ (fun _ => List.range 10) 1
      ⟨[some 5, none], 1, 1, [5], [10]⟩ (by decide)).2 [5, 7] [0, 1]).1

/-- Claim C5 (counterexample).  Start 5 is prime with residue 5 mod 6,
yet under the interleaving in which the worker of candidate 7 runs
first, the run tests candidate 7 — a candidate beyond the start — and
the final selection is 7, not 5. -/
theorem boundary_race_counterexample :
    searchLoop ⟨5, 2, 10⟩ (fun _ => [1, 0, 2, 3, 4, 5, 6, 7, 8, 9]) 1 0 [] 0 [] []
        = some ⟨[none, some 7], 1, 1, [7], [10]⟩
    ∧ Nat.Prime 5
    ∧ 5 % 6 = 5
    ∧ selectResult [none, some 7] = 7
    ∧ (7 : ℤ) ≠ 5
    ∧ (7 : ℕ) ≠ 5 := by
  refine ⟨by decide, by norm_num, by decide, by decide, by decide, by decide⟩

/-- Claim C5 (amended).  When the workers execute in dispatch order —
the behaviour of a single-worker pool — a prime start with residue 1
or 5 mod 6 is returned at the end of round one, only the start itself
is primality-tested, and the final loop returns the start under every
enumeration of the accumulated set. -/
theorem boundary_prime_start_in_order (v w B fuel : ℕ) (hv : Nat.Prime v)
    (hmod : v % 6 = 1 ∨ v % 6 = 5) (hB : 1 ≤ B) :
    ∃ stats : RunStats,
      searchLoop ⟨v, w, B⟩ (fun _ => List.range B) (fuel + 1) 0 [] 0 [] [] = some stats
      ∧ stats.rounds = 1
      ∧ stats.tested = [v]
      ∧ stats.tests = 1
      ∧ some v ∈ stats.results
      ∧ (∀ x ∈ stats.results, x = none ∨ x = some v)
      ∧ ∀ enum : List (Option ℕ),
          (∀ x : Option ℕ, x ∈ enum ↔ x ∈ stats.results) →
          selectResult enum = (v : ℤ) := by
  obtain ⟨b, rfl⟩ : ∃ b, B = b + 1 := ⟨B - 1, by omega⟩
  have hp : isprime v = true := (isprime_iff v).mpr hv
  have hc0 : (batchCands ⟨v, w, b + 1⟩ 0).getD 0 0 = v := by
    rw [batchCands_getD_zero ⟨v, w, b + 1⟩ b rfl]
    exact nextFrom_eq_self hmod
  have hord : List.range (b + 1) = 0 :: List.map Nat.succ (List.range b) :=
    List.range_succ_eq_map b
  obtain ⟨hflag, htests, htested, hres0, hresj⟩ :=
    exec_in_order_first_prime (batchCands ⟨v, w, b + 1⟩ 0)
      (List.map Nat.succ (List.range b)) v hc0 hp
  have hflag2 : execFlag (batchCands ⟨v, w, b + 1⟩ 0) (List.range (b + 1)) false = true := by
    rw [hord]; exact hflag
  have htests2 : execTests (batchCands ⟨v, w, b + 1⟩ 0) (List.range (b + 1)) false = 1 := by
    rw [hord]; exact htests
  have htested2 : execTested (batchCands ⟨v, w, b + 1⟩ 0) (List.range (b + 1)) false = [v] := by
    rw [hord]; exact htested
  have hres02 : execRes (batchCands ⟨v, w, b + 1⟩ 0) (List.range (b + 1)) false 0 = some v := by
    rw [hord]; exact hres0
  have hresj2 : ∀ j, j ≠ 0 →
      execRes (batchCands ⟨v, w, b + 1⟩ 0) (List.range (b + 1)) false j = none := by
    intro j hj; rw [hord]; exact hresj j hj
  have houtshape : ∀ x ∈ batchOutcome (batchCands ⟨v, w, b + 1⟩ 0) (List.range (b + 1)),
      x = none ∨ x = some v := by
    intro x hx
    obtain ⟨j, hj, rfl⟩ := List.mem_map.mp hx
    by_cases hj0 : j = 0
    · subst hj0
      rw [hres02]
      exact Or.inr rfl
    · rw [hresj2 j hj0]
      exact Or.inl rfl
  have houtmem : some v ∈ batchOutcome (batchCands ⟨v, w, b + 1⟩ 0) (List.range (b + 1)) := by
    have h0 : (0 : ℕ) ∈ List.range (batchCands ⟨v, w, b + 1⟩ 0).length := by
      rw [batchCands_length]
      exact List.mem_range.mpr (Nat.succ_pos b)
    exact List.mem_map.mpr ⟨0, h0, hres02⟩
  have hstep : searchLoop ⟨v, w, b + 1⟩ (fun _ => List.range (b + 1)) (fuel + 1) 0 [] 0 [] []
      = some ⟨setUnion []
                (batchOutcome (batchCands ⟨v, w, b + 1⟩ 0) (List.range (b + 1))),
              1, 1, [v], [b + 1]⟩ := by
    simp only [searchLoop]
    rw [if_pos hflag2, htests2, htested2, batchCands_length]
    rfl
  have hresshape : ∀ x ∈ setUnion []
      (batchOutcome (batchCands ⟨v, w, b + 1⟩ 0) (List.range (b + 1))),
      x = none ∨ x = some v := by
    intro x hx
    rcases (mem_setUnion _ _ _).mp hx with h | h
    · exact absurd h (by simp)
    · exact houtshape x h
  have hresmem : some v ∈ setUnion []
      (batchOutcome (batchCands ⟨v, w, b + 1⟩ 0) (List.range (b + 1))) :=
    (mem_setUnion _ _ _).mpr (Or.inr houtmem)
  refine ⟨_, hstep, rfl, rfl, rfl, hresmem, hresshape, ?_⟩
  intro enum henum
  exact selectResult_unique v enum (fun x hx => hresshape x ((henum x).mp hx))
    ((henum (some v)).mpr hresmem)

/-- Witness for C5 at the prime start 5 with one worker and batch size
10. -/
theorem boundary_prime_start_in_order_witness :
    ∃ stats : RunStats,
      searchLoop ⟨5, 1, 10⟩ (fun _ => List.range 10) (0 + 1) 0 [] 0 [] [] = some stats
      ∧ stats.rounds = 1
      ∧ stats.tested = [5]
      ∧ stats.tests = 1
      ∧ some 5 ∈ stats.results
      ∧ (∀ x ∈ stats.results, x = none ∨ x = some 5)
      ∧ ∀ enum : List (Option ℕ),
          (∀ x : Option ℕ, x ∈ enum ↔ x ∈ stats.results) →
          selectResult enum = ((5 : ℕ) : ℤ) :=
  boundary_prime_start_in_order 5 1 10 0 (by norm_num) (by decide) (by decide)

/-- Claim C6 (counterexample).  Constructing the search with zero
workers succeeds — __init__ performs no worker-count validation — and
the rejection only happens later, inside find_next_prime, when the
pool is created. -/
theorem init_accepts_zero_workers :
    NextPrimeFinder.init 5 0 = Except.ok (NextPrimeFinder.initFd 5 0)
    ∧ find_next_prime_run (NextPrimeFinder.initFd 5 0) (fun _ => List.range 10) 1
        = Except.error PyError.poolSizeError := by
  constructor
  · unfold NextPrimeFinder.init
    rw [if_neg (by omega)]
  · rfl

/-- Claim C6 (amended).  A worker count below 1 is not rejected at
request creation: construction succeeds for any positive value.  The
request is rejected at the start of find_next_prime, when the pool is
created — which is still before any candidate is generated and before
any primality work is scheduled. -/
theorem reject_at_pool_creation (v w : ℕ) (hw : w = 0) (sched : ℕ → List ℕ) (fuel : ℕ) :
    find_next_prime_run (NextPrimeFinder.initFd v w) sched fuel
        = Except.error PyError.poolSizeError
    ∧ (v ≠ 0 → NextPrimeFinder.init v w = Except.ok (NextPrimeFinder.initFd v w)) := by
  subst hw
  constructor
  · have hnw : (NextPrimeFinder.initFd v 0).n_workers = 0 := rfl
    simp [find_next_prime_run, hnw]
  · intro hv0
    unfold NextPrimeFinder.init
    rw [if_neg hv0]

/-- Witness for C6 at value 7 with zero workers. -/
theorem reject_at_pool_creation_witness :
    find_next_prime_run (NextPrimeFinder.initFd 7 0) (fun _ => []) 3
        = Except.error PyError.poolSizeError
    ∧ NextPrimeFinder.init 7 0 = Except.ok (NextPrimeFinder.initFd 7 0) :=
  ⟨(reject_at_pool_creation 7 0 rfl (fun _ => []) 3).1,
   (reject_at_pool_creation 7 0 rfl (fun _ => []) 3).2 (by omega)⟩

/-- Claim C7 (confirmed).  For every start of at least 1, construction
succeeds, the stored batch size is max(10, floor(log(start))) with the
natural logarithm, and every completed run dispatches exactly that many
candidates in every round: the recorded batch lengths are the batch
size repeated once per round. -/
theorem batch_size_formula (v w : ℕ) (hv : 1 ≤ v) :
    NextPrimeFinder.init v w = Except.ok (NextPrimeFinder.initFd v w)
    ∧ (NextPrimeFinder.initFd v w).expected_n_primality_tests = max 10 ⌊Real.log v⌋₊
    ∧ ∀ (sched : ℕ → List ℕ) (fuel : ℕ) (stats : RunStats),
        searchLoop (NextPrimeFinder.initFd v w) sched fuel 0 [] 0 [] [] = some stats →
        stats.batchLengths = List.replicate stats.rounds (max 10 ⌊Real.log v⌋₊) := by
  refine ⟨?_, rfl, ?_⟩
  · unfold NextPrimeFinder.init
    rw [if_neg (by omega)]
  · intro sched fuel stats h
    obtain ⟨k, hk1, hk2⟩ :=
      searchLoop_batchLengths (NextPrimeFinder.initFd v w) sched fuel 0 0 [] [] [] stats h
    rw [hk2, hk1, List.nil_append, Nat.zero_add]
    rfl

/-- Witness for C7 at start 3 with two workers. -/
theorem batch_size_formula_witness :
    NextPrimeFinder.init 3 2 = Except.ok (NextPrimeFinder.initFd 3 2) :=
  (batch_size_formula 3 2 (by omega)).1
